import Mathlib

/-!
Verification of the FlexiPay fallback engine.

This file is a shallow embedding of the core of the repository
(`app/circuit_breaker/breaker.py`, `app/engine/backoff.py`,
`app/engine/fallback_engine.py`, `app/processors/mock_processor.py`,
`app/models/*.py`) together with theorems settling the specified
properties of those components.

Modelling conventions:
- Python floats used as times, rates and amounts are modelled as `ℚ`.
- `time.monotonic()` is passed in explicitly as a `now : ℚ` argument to
  every operation that reads the clock in the source.
- Randomness (`random.uniform`, `random.random`) is passed in as an
  explicit oracle argument.
- Stateful methods become functions from the old state to the new state.
- Wall-clock only fields (`latency_ms`) are outside the embedding; the
  `processed_at` timestamp is modelled by the `now` of the call.
-/

/-- The circuit breaker state enum from `app/models/processor.py`
(`CircuitBreakerState`: closed / open / half_open). -/
inductive CBState where
  | closed
  | opened
  | halfOpen
deriving DecidableEq, Repr

/-- The constructor parameters of `CircuitBreaker.__init__` in
`app/circuit_breaker/breaker.py`. -/
structure BreakerConfig where
  window_size : Nat
  window_seconds : ℚ
  trip_threshold : ℚ
  cooldown_seconds : ℚ
deriving DecidableEq, Repr

/-- The mutable state of a `CircuitBreaker`: the rolling window of
`(timestamp, success)` samples (oldest first, like the deque), the state,
`_opened_at`, `_last_failure_at` and `_half_open_probe_in_flight`. -/
structure Breaker where
  window : List (ℚ × Bool)
  state : CBState
  opened_at : Option ℚ
  last_failure_at : Option ℚ
  probe_in_flight : Bool
deriving DecidableEq, Repr

/-- The freshly constructed breaker (`CircuitBreaker.__init__`). -/
def Breaker.init : Breaker :=
  { window := [], state := .closed, opened_at := none,
    last_failure_at := none, probe_in_flight := false }

/-- `CircuitBreaker._evict_stale`: drop leading samples older than
`now - window_seconds`, then drop from the front until no more than
`window_size` samples remain. -/
def evict_stale (cfg : BreakerConfig) (now : ℚ) (w : List (ℚ × Bool)) :
    List (ℚ × Bool) :=
  let cutoff := now - cfg.window_seconds
  let w1 := w.dropWhile (fun s => decide (s.1 < cutoff))
  w1.drop (w1.length - cfg.window_size)

/-- `CircuitBreaker._add_sample`: append `(now, success)` and evict. -/
def add_sample (cfg : BreakerConfig) (now : ℚ) (success : Bool)
    (w : List (ℚ × Bool)) : List (ℚ × Bool) :=
  evict_stale cfg now (w ++ [(now, success)])

/-- The `sum(1 for _, s in self._window if s)` count of successful samples. -/
def success_count (w : List (ℚ × Bool)) : Nat :=
  (w.filter (fun s => s.2)).length

/-- `CircuitBreaker._evaluate_trip`: with fewer than 5 samples do nothing;
otherwise trip to OPEN when `success_count / total < trip_threshold`. -/
def evaluate_trip (cfg : BreakerConfig) (now : ℚ) (b : Breaker) : Breaker :=
  if b.window.length < 5 then b
  else if (success_count b.window : ℚ) / (b.window.length : ℚ) <
      cfg.trip_threshold then
    { b with state := .opened, opened_at := some now }
  else b

/-- `CircuitBreaker.record_success`: add a success sample; when HALF_OPEN
recover to CLOSED clearing `opened_at` and the probe flag.  Adding the
sample does not change the state fields, so the dispatch reads the
original state. -/
def record_success (cfg : BreakerConfig) (now : ℚ) (b : Breaker) : Breaker :=
  if b.state = .halfOpen then
    { b with window := add_sample cfg now true b.window,
             state := .closed, opened_at := none, probe_in_flight := false }
  else
    { b with window := add_sample cfg now true b.window }

/-- `CircuitBreaker.record_failure`: stamp `last_failure_at`, add a failure
sample; when HALF_OPEN go back to OPEN resetting the cooldown; when CLOSED
run the trip evaluation on the updated window; when OPEN leave the state
alone. -/
def record_failure (cfg : BreakerConfig) (now : ℚ) (b : Breaker) : Breaker :=
  if b.state = .halfOpen then
    { b with last_failure_at := some now,
             window := add_sample cfg now false b.window,
             state := .opened, opened_at := some now, probe_in_flight := false }
  else if b.state = .closed then
    evaluate_trip cfg now
      { b with last_failure_at := some now,
               window := add_sample cfg now false b.window }
  else
    { b with last_failure_at := some now,
             window := add_sample cfg now false b.window }

/-- `CircuitBreaker.allow_request`: returns the boolean decision together
with the possibly updated breaker (OPEN transitions to HALF_OPEN when the
cooldown elapsed; a HALF_OPEN probe slot is claimed). -/
def allow_request (cfg : BreakerConfig) (now : ℚ) (b : Breaker) :
    Bool × Breaker :=
  if b.state = .closed then (true, b)
  else if b.state = .opened then
    match b.opened_at with
    | some t =>
      if cfg.cooldown_seconds ≤ now - t then
        (true, { b with state := .halfOpen, probe_in_flight := true })
      else (false, b)
    | none => (false, b)
  else if b.state = .halfOpen then
    if b.probe_in_flight then (false, b)
    else (true, { b with probe_in_flight := true })
  else (false, b)

/-- `CircuitBreaker.reset`: clear the window and all auxiliaries. -/
def reset (_b : Breaker) : Breaker :=
  { window := [], state := .closed, opened_at := none,
    last_failure_at := none, probe_in_flight := false }

/-- The loop body of `CircuitBreaker.inject_failures`: add `n` failure
samples (all stamped at the same `now`). -/
def add_failures (cfg : BreakerConfig) (now : ℚ) :
    Nat → List (ℚ × Bool) → List (ℚ × Bool)
  | 0, w => w
  | n + 1, w => add_failures cfg now n (add_sample cfg now false w)

/-- `CircuitBreaker.inject_failures`: add `n` synthetic failures, stamp
`last_failure_at`, and when CLOSED run the trip evaluation. -/
def inject_failures (cfg : BreakerConfig) (now : ℚ) (n : Nat) (b : Breaker) :
    Breaker :=
  if b.state = .closed then
    evaluate_trip cfg now
      { b with window := add_failures cfg now n b.window,
               last_failure_at := some now }
  else
    { b with window := add_failures cfg now n b.window,
             last_failure_at := some now }

/-- `exponential_backoff` from `app/engine/backoff.py`:
`delay = min(cap, base * 2 ** attempt)`, and with jitter the returned
delay is `random.uniform(0, delay)`, modelled as `u * delay` where
`u : ℚ` stands for the `random.random()` draw in `[0, 1)`. -/
def exponential_backoff (attempt : Nat) (base cap : ℚ) (jitter : Bool)
    (u : ℚ) : ℚ :=
  if jitter then u * min cap (base * 2 ^ attempt)
  else min cap (base * 2 ^ attempt)

/-- The `Currency` enum from `app/models/transaction.py`. -/
inductive Currency where
  | BRL
  | USD
  | MXN
deriving DecidableEq, Repr

/-- String value of a `Currency` (the `.value` of the Python str enum). -/
def Currency.str : Currency → String
  | .BRL => "BRL"
  | .USD => "USD"
  | .MXN => "MXN"

/-- The `DeclineType` enum from `app/models/processor.py`. -/
inductive DeclineType where
  | soft
  | hard
  | rate_limit
deriving DecidableEq, Repr

/-- String value of a `DeclineType` (the `.value` of the Python str enum). -/
def DeclineType.str : DeclineType → String
  | .soft => "soft"
  | .hard => "hard"
  | .rate_limit => "rate_limit"

/-- The `ProcessorResultStatus` enum from `app/models/processor.py`. -/
inductive PStatus where
  | success
  | soft_decline
  | hard_decline
  | rate_limited
  | timeout
  | circuit_open
deriving DecidableEq, Repr

/-- The `ProcessorResult` pydantic model (`raw_response` and `latency_ms`
are diagnostic-only and outside the embedding). -/
structure ProcessorResult where
  processor_name : String
  status : PStatus
  amount : Option ℚ := none
  fee : Option ℚ := none
  fee_rate : Option ℚ := none
  decline_code : Option String := none
  decline_type : Option DeclineType := none
deriving DecidableEq, Repr

/-- The `TransactionRequest` pydantic model (fields consumed by the
engine; `metadata` is opaque and not consumed by the core). -/
structure TransactionRequest where
  transaction_id : String
  amount : ℚ
  currency : Currency
  merchant_id : String
  card_last_four : String
deriving DecidableEq, Repr

/-- Structured form of one `processors_tried` audit-trail entry.  The
source renders these as strings; the tag constructors below correspond
one-to-one to the f-strings appended in `FallbackEngine.process`:
`(success)`, `(circuit_open)`, `(hard_decline:<code>)`,
`(rate_limited:retry_<k>)`, `(rate_limited:exhausted)` and
`(<status>:<code or n/a>)` for soft declines and timeouts. -/
inductive AuditTag where
  | success
  | circuitOpen
  | hardDecline (code : Option String)
  | rateLimitedRetry (k : Nat)
  | rateLimitedExhausted
  | softFail (status : PStatus) (code : Option String)
deriving DecidableEq, Repr

/-- An audit-trail entry: the processor name and the outcome tag. -/
abbrev AuditEntry := String × AuditTag

/-- Structured form of one `retry_log` entry
(`"<name>: rate_limited, backoff <delay>s"`): the processor name and the
1-based backoff attempt number.  The jittered delay printed in the string
is real-valued randomness and is not modelled. -/
abbrev RetryEntry := String × Nat

/-- The `TransactionResponse` pydantic model.  `latency_ms` is wall-clock
only and outside the embedding; `processed_at` is modelled by the `now`
of the `process` call that built the response. -/
structure TransactionResponse where
  transaction_id : String
  status : String
  processor_used : Option String := none
  amount : ℚ
  currency : String
  fee : Option ℚ := none
  fee_rate : Option ℚ := none
  decline_reason : Option String := none
  decline_type : Option String := none
  attempts : Nat
  processors_tried : List AuditEntry := []
  retry_log : List RetryEntry := []
  processed_at : ℚ
deriving DecidableEq, Repr

/-- The observable behaviour of one `await asyncio.wait_for(
processor.charge(request), timeout=...)` call as seen by the engine:
either the processor returned a `ProcessorResult`, or the deadline fired
(`asyncio.TimeoutError`), or the processor raised some other exception in
violation of the port contract. -/
inductive ChargeBehavior where
  | ok (r : ProcessorResult)
  | timedOut
  | raises
deriving DecidableEq, Repr

/-- The engine's view of one processor (`AbstractProcessor` from
`app/processors/base.py` plus its breaker): its `name`, its `fee_rate`,
the result of the single `cb.allow_request()` guard consulted for it
during one `process` call, and an oracle giving the behaviour of its
k-th `charge` call within that `process` call. -/
structure ProcModel where
  name : String
  fee_rate : ℚ
  allow : Bool
  charge : Nat → ChargeBehavior

/-- The `Settings` fields consumed by the engine loop
(`app/config.py`).  The backoff seconds only shape the slept delay and
the rendered retry-log string, neither of which is in the embedding. -/
structure Settings where
  BACKOFF_MAX_RETRIES : Nat
  BACKOFF_BASE_SECONDS : ℚ
  BACKOFF_MAX_SECONDS : ℚ
  PROCESSOR_TIMEOUT_SECONDS : ℚ
deriving DecidableEq, Repr

/-- The default configuration values of `app/config.py`. -/
def Settings.default : Settings :=
  { BACKOFF_MAX_RETRIES := 2, BACKOFF_BASE_SECONDS := 1/2,
    BACKOFF_MAX_SECONDS := 30, PROCESSOR_TIMEOUT_SECONDS := 3 }

/-- The local accumulator variables of `FallbackEngine.process`
(`attempts`, `processors_tried`, `retry_log`, `last_result`), together
with the trace `calls` of the `charge` invocations actually made (the
observable the tests read through `call_count`). -/
structure RunAcc where
  attempts : Nat
  tried : List AuditEntry
  retryLog : List RetryEntry
  lastResult : Option ProcessorResult
  calls : List (String × ChargeBehavior)
deriving DecidableEq, Repr

/-- The accumulator at the top of `process`. -/
def RunAcc.init : RunAcc :=
  { attempts := 0, tried := [], retryLog := [], lastResult := none,
    calls := [] }

/-- Outcome of running one processor's backoff loop: a terminal response
returned from inside the loop, fall-through to the next processor, or an
exception escaping the loop. -/
inductive ProcOut where
  | terminal (resp : TransactionResponse) (acc : RunAcc)
  | next (acc : RunAcc)
  | raised (acc : RunAcc)
deriving Repr

/-- Outcome of the whole processor chain in `process`. -/
inductive ChainOut where
  | terminal (resp : TransactionResponse) (acc : RunAcc)
  | exhausted (acc : RunAcc)
  | raised (acc : RunAcc)
deriving Repr

/-- The synthetic `TIMEOUT` `ProcessorResult` the engine builds when
`asyncio.wait_for` raises `asyncio.TimeoutError`. -/
def timeoutResult (name : String) : ProcessorResult :=
  { processor_name := name, status := .timeout }

/-- The synthetic `CIRCUIT_OPEN` `ProcessorResult` the engine builds when
the breaker rejects the request. -/
def circuitOpenResult (name : String) : ProcessorResult :=
  { processor_name := name, status := .circuit_open }

/-- The approved `TransactionResponse` built in the SUCCESS branch of
`process`. -/
def approvedResp (req : TransactionRequest) (name : String)
    (result : ProcessorResult) (acc : RunAcc) (now : ℚ) :
    TransactionResponse :=
  { transaction_id := req.transaction_id, status := "approved",
    processor_used := some name, amount := req.amount,
    currency := req.currency.str, fee := result.fee,
    fee_rate := result.fee_rate, attempts := acc.attempts,
    processors_tried := acc.tried, retry_log := acc.retryLog,
    processed_at := now }

/-- The declined `TransactionResponse` built in the HARD_DECLINE branch
of `process`. -/
def declinedHardResp (req : TransactionRequest) (name : String)
    (result : ProcessorResult) (acc : RunAcc) (now : ℚ) :
    TransactionResponse :=
  { transaction_id := req.transaction_id, status := "declined",
    processor_used := some name, amount := req.amount,
    currency := req.currency.str,
    decline_reason := result.decline_code, decline_type := some "hard",
    attempts := acc.attempts, processors_tried := acc.tried,
    retry_log := acc.retryLog, processed_at := now }

/-- The `decline_reason` of the all-processors-exhausted response:
`last_result.decline_code if last_result else "all_processors_failed"`,
then `decline_reason or "all_processors_failed"` (Python truthiness also
replaces an empty string). -/
def exhaustedReason (lastResult : Option ProcessorResult) : String :=
  let dr : Option String :=
    match lastResult with
    | some r => r.decline_code
    | none => some "all_processors_failed"
  match dr with
  | some c => if c = "" then "all_processors_failed" else c
  | none => "all_processors_failed"

/-- The `decline_type` of the all-processors-exhausted response:
`last_result.decline_type.value if last_result and last_result.decline_type
else "soft"`. -/
def exhaustedType (lastResult : Option ProcessorResult) : String :=
  match lastResult with
  | some r =>
    match r.decline_type with
    | some dt => dt.str
    | none => "soft"
  | none => "soft"

/-- The declined `TransactionResponse` built after all processors are
exhausted. -/
def exhaustedResp (req : TransactionRequest) (acc : RunAcc) (now : ℚ) :
    TransactionResponse :=
  { transaction_id := req.transaction_id, status := "declined",
    amount := req.amount, currency := req.currency.str,
    decline_reason := some (exhaustedReason acc.lastResult),
    decline_type := some (exhaustedType acc.lastResult),
    attempts := acc.attempts, processors_tried := acc.tried,
    retry_log := acc.retryLog, processed_at := now }

/-- Stable insertion step: insert `p` before the first element whose
`fee_rate` is not smaller.  Together with `sortByFee` this computes
exactly the list produced by Python's stable `sorted(..., key=lambda p:
p.fee_rate)`. -/
def insertByFee (p : ProcModel) : List ProcModel → List ProcModel
  | [] => [p]
  | q :: qs =>
    if p.fee_rate ≤ q.fee_rate then p :: q :: qs else q :: insertByFee p qs

/-- Stable ascending sort by `fee_rate`, the model of
`sorted(self._processors, key=lambda p: p.fee_rate)`. -/
def sortByFee : List ProcModel → List ProcModel
  | [] => []
  | p :: ps => insertByFee p (sortByFee ps)

/-- The currency-aware ordering computed at the top of
`FallbackEngine.process`: for BRL every processor named `"PixFlow"` comes
first (in declared order) followed by the rest sorted by ascending fee
rate; otherwise the whole list is sorted by ascending fee rate. -/
def orderProcessors (procs : List ProcModel) (c : Currency) :
    List ProcModel :=
  if c = .BRL then
    procs.filter (fun p => p.name == "PixFlow") ++
      sortByFee (procs.filter (fun p => !(p.name == "PixFlow")))
  else
    sortByFee procs

/-- The retry-log append at the top of a backoff iteration: when
`backoff_attempt > 0` the source sleeps and appends one retry-log
entry. -/
def retryMark (p : ProcModel) (ba : Nat) (acc : RunAcc) : RunAcc :=
  if ba == 0 then acc
  else { acc with retryLog := acc.retryLog ++ [(p.name, ba)] }

/-- The `attempts += 1` step of a backoff iteration. -/
def attemptMark (acc : RunAcc) : RunAcc :=
  { acc with attempts := acc.attempts + 1 }

/-- Recording one completed `charge` call: the call trace gains the
behaviour observed and `last_result` becomes the (possibly synthetic)
`ProcessorResult`. -/
def callMark (p : ProcModel) (beh : ChargeBehavior)
    (result : ProcessorResult) (acc : RunAcc) : RunAcc :=
  { acc with calls := acc.calls ++ [(p.name, beh)],
             lastResult := some result }

/-- Recording a `charge` invocation that raised: the call happened but
`last_result` is not updated (the exception escapes first). -/
def raiseMark (p : ProcModel) (acc : RunAcc) : RunAcc :=
  { acc with calls := acc.calls ++ [(p.name, ChargeBehavior.raises)] }

/-- Appending one audit-trail entry. -/
def triedMark (e : AuditEntry) (acc : RunAcc) : RunAcc :=
  { acc with tried := acc.tried ++ [e] }

/-- One processor's rate-limit backoff loop
(`for backoff_attempt in range(BACKOFF_MAX_RETRIES + 1)` in `process`).
`ba` is the current `backoff_attempt` and `rem` the number of iterations
the `range` still has after this one, so that starting from
`(0, BACKOFF_MAX_RETRIES)` the source's `backoff_attempt <
BACKOFF_MAX_RETRIES` continue-condition is exactly `rem > 0`.  A
`timedOut` behaviour becomes the synthetic TIMEOUT result, which then
takes the SOFT_DECLINE/TIMEOUT routing branch. -/
def chargeLoop (req : TransactionRequest) (now : ℚ) (p : ProcModel) :
    Nat → Nat → RunAcc → ProcOut
  | ba, rem, acc =>
    let acc1 := attemptMark (retryMark p ba acc)
    match p.charge ba with
    | .raises => .raised (raiseMark p acc1)
    | .timedOut =>
      let result := timeoutResult p.name
      let acc2 := callMark p .timedOut result acc1
      .next (triedMark
        (p.name, .softFail result.status result.decline_code) acc2)
    | .ok result =>
      let acc2 := callMark p (.ok result) result acc1
      match result.status with
      | .success =>
        let acc3 := triedMark (p.name, .success) acc2
        .terminal (approvedResp req p.name result acc3 now) acc3
      | .hard_decline =>
        let acc3 := triedMark (p.name, .hardDecline result.decline_code) acc2
        .terminal (declinedHardResp req p.name result acc3 now) acc3
      | .rate_limited =>
        match rem with
        | rem' + 1 =>
          chargeLoop req now p (ba + 1) rem'
            (triedMark (p.name, .rateLimitedRetry (ba + 1)) acc2)
        | 0 => .next (triedMark (p.name, .rateLimitedExhausted) acc2)
      | s => .next (triedMark (p.name, .softFail s result.decline_code) acc2)

/-- The circuit-open skip branch of the chain loop: synthesise a
`CIRCUIT_OPEN` `last_result`, append a `(circuit_open)` audit entry, and
do not count an attempt. -/
def circuitSkip (p : ProcModel) (acc : RunAcc) : RunAcc :=
  { acc with lastResult := some (circuitOpenResult p.name),
             tried := acc.tried ++ [(p.name, AuditTag.circuitOpen)] }

/-- The `for processor in ordered_processors` loop of
`FallbackEngine.process`. -/
def runChain (cfg : Settings) (req : TransactionRequest) (now : ℚ) :
    List ProcModel → RunAcc → ChainOut
  | [], acc => .exhausted acc
  | p :: rest, acc =>
    if p.allow then
      match chargeLoop req now p 0 cfg.BACKOFF_MAX_RETRIES acc with
      | .terminal resp acc' => .terminal resp acc'
      | .next acc' => runChain cfg req now rest acc'
      | .raised acc' => .raised acc'
    else
      runChain cfg req now rest (circuitSkip p acc)

/-- The idempotency cache: `transaction_id -> (cached_at, payload)` where
`none` as payload is the `_PROCESSING` sentinel.  Python's dict is
modelled as an association list with unique keys. -/
abbrev Cache := List (String × ℚ × Option TransactionResponse)

/-- Dict lookup on the cache. -/
def cacheFind : Cache → String → Option (ℚ × Option TransactionResponse)
  | [], _ => none
  | e :: es, k => if e.1 == k then some e.2 else cacheFind es k

/-- Dict assignment on the cache: any previous entry for the key is
dropped and the new binding appended. -/
def cacheSet (c : Cache) (k : String) (v : ℚ × Option TransactionResponse) :
    Cache :=
  c.filter (fun e => !(e.1 == k)) ++ [(k, v)]

/-- The `_IDEMPOTENCY_TTL_SECONDS` constant (24 hours). -/
def TTL : ℚ := 86400

/-- `FallbackEngine._check_and_claim`: under one lock either return the
valid cached response, fall through on a live `_PROCESSING` sentinel, or
(after evicting an expired entry) claim the slot with a sentinel. -/
def check_and_claim (c : Cache) (k : String) (now : ℚ) :
    Option TransactionResponse × Cache :=
  match cacheFind c k with
  | some (ts, payload) =>
    if now - ts ≤ TTL then
      match payload with
      | some resp => (some resp, c)
      | none => (none, c)
    else
      (none, cacheSet c k (now, none))
  | none => (none, cacheSet c k (now, none))

/-- `FallbackEngine._store_and_evict`: replace the sentinel with the
final response, then sweep every entry whose age exceeds the TTL. -/
def store_and_evict (c : Cache) (k : String) (resp : TransactionResponse)
    (now : ℚ) : Cache :=
  (cacheSet c k (now, some resp)).filter (fun e => decide (now - e.2.1 ≤ TTL))

/-- `FallbackEngine.process`: idempotency check-and-claim, currency-aware
ordering, the guarded processor chain, and the final store.  The result
is `.error ()` when a processor exception escapes `process`; otherwise it
is the response, the updated cache, and the trace of `charge` calls made
by this invocation. -/
def process (cfg : Settings) (procs : List ProcModel)
    (req : TransactionRequest) (c : Cache) (now : ℚ) :
    Except Unit (TransactionResponse × Cache ×
      List (String × ChargeBehavior)) :=
  match check_and_claim c req.transaction_id now with
  | (some resp, c') => .ok (resp, c', [])
  | (none, c') =>
    match runChain cfg req now (orderProcessors procs req.currency)
        RunAcc.init with
    | .terminal resp acc =>
      .ok (resp, store_and_evict c' req.transaction_id resp now, acc.calls)
    | .exhausted acc =>
      let resp := exhaustedResp req acc now
      .ok (resp, store_and_evict c' req.transaction_id resp now, acc.calls)
    | .raised _ => .error ()

/-- Count of audit-trail entries whose outcome tag is not
`circuit_open`. -/
def countNonCO (l : List AuditEntry) : Nat :=
  (l.filter (fun e => !(e.2 == AuditTag.circuitOpen))).length

/-- The cache is well-formed when every cached terminal response
satisfies the attempts/audit-trail invariant. -/
def WFCache (c : Cache) : Prop :=
  ∀ e ∈ c, ∀ r, e.2.2 = some r → r.attempts = countNonCO r.processors_tried

/-- A processor behaves like `MockableProcessor.charge` on success: the
SUCCESS branch of `app/processors/mock_processor.py` returns
`fee = request.amount * Decimal(str(self.fee_rate))` and
`fee_rate = self.fee_rate` (exact decimal product, no quantisation). -/
def MockLike (p : ProcModel) (req : TransactionRequest) : Prop :=
  ∀ k r, p.charge k = .ok r → r.status = .success →
    r.fee = some (req.amount * p.fee_rate) ∧ r.fee_rate = some p.fee_rate

/-- Rounding of a rational to 2-digit fixed-point precision (round half
away from even is irrelevant at the inputs used; `round` is
nearest-integer rounding). -/
def round2 (q : ℚ) : ℚ := (round (q * 100) : ℤ) / 100

/-- The attempts/audit-trail invariant on a run accumulator: `attempts`
equals the number of non-`circuit_open` audit entries. -/
def InvA (acc : RunAcc) : Prop := acc.attempts = countNonCO acc.tried

/-- The attempts/audit-trail invariant on a backoff-loop outcome. -/
def InvOut : ProcOut → Prop
  | .terminal resp acc' =>
    resp.attempts = countNonCO resp.processors_tried ∧ InvA acc'
  | .next acc' => InvA acc'
  | .raised _ => True

/-- The attempts/audit-trail invariant on a chain outcome. -/
def InvChain : ChainOut → Prop
  | .terminal resp acc' =>
    resp.attempts = countNonCO resp.processors_tried ∧ InvA acc'
  | .exhausted acc' => InvA acc'
  | .raised _ => True

/-- Breaker configuration with the default settings of `app/config.py`
(window 50 samples / 300 s, threshold 20 percent, cooldown 120 s). -/
def cfgCB : BreakerConfig :=
  { window_size := 50, window_seconds := 300, trip_threshold := 1/5,
    cooldown_seconds := 120 }

/-- A CLOSED breaker holding four failure samples at time 0. -/
def bClosed4 : Breaker :=
  { window := [(0, false), (0, false), (0, false), (0, false)],
    state := .closed, opened_at := none, last_failure_at := none,
    probe_in_flight := false }

/-- A HALF_OPEN breaker with a free probe slot. -/
def bHalf : Breaker :=
  { window := [], state := .halfOpen, opened_at := some 0,
    last_failure_at := some 0, probe_in_flight := false }

/-- An OPEN breaker that opened at time 0. -/
def bOpen : Breaker :=
  { window := [], state := .opened, opened_at := some 0,
    last_failure_at := some 0, probe_in_flight := false }

/-- Processor fixture whose breaker allows requests and whose charges
all run into the `asyncio.wait_for` deadline. -/
def procW (n : String) (fr : ℚ) : ProcModel :=
  { name := n, fee_rate := fr, allow := true, charge := fun _ => .timedOut }

/-- Processor list fixture in reverse fee order, PixFlow declared first. -/
def psW : List ProcModel :=
  [procW "PixFlow" 3, procW "SwiftPay" 2, procW "VortexPay" 1]

/-- A soft-decline `ProcessorResult` fixture. -/
def rSoftW : ProcessorResult :=
  { processor_name := "A", status := .soft_decline,
    decline_code := some "insufficient_funds",
    decline_type := some DeclineType.soft }

/-- A processor fixture that always soft-declines. -/
def pSoftW : ProcModel :=
  { name := "A", fee_rate := 1, allow := true,
    charge := fun _ => .ok rSoftW }

/-- A hard-decline `ProcessorResult` fixture. -/
def rHardW : ProcessorResult :=
  { processor_name := "B", status := .hard_decline,
    decline_code := some "stolen_card",
    decline_type := some DeclineType.hard }

/-- A processor fixture that always hard-declines. -/
def pHardW : ProcModel :=
  { name := "B", fee_rate := 2, allow := true,
    charge := fun _ => .ok rHardW }

/-- A processor fixture whose charge raises an unexpected exception. -/
def pRaiseW : ProcModel :=
  { name := "C", fee_rate := 1, allow := true, charge := fun _ => .raises }

/-- A request fixture (USD so the chain is plain fee-sorted). -/
def reqW : TransactionRequest :=
  { transaction_id := "t1", amount := 100, currency := .USD,
    merchant_id := "m1", card_last_four := "4242" }

/-- A successful `ProcessorResult` built the way
`MockableProcessor.charge` builds it for a request of amount 0.10 and a
fee rate of 0.025: the fee is the exact decimal product 0.0025. -/
def rMockW : ProcessorResult :=
  { processor_name := "M", status := .success, amount := some (1/10),
    fee := some (1/400), fee_rate := some (1/40) }

/-- A mock-like processor with fee rate 0.025 that always succeeds. -/
def pMockW : ProcModel :=
  { name := "M", fee_rate := 1/40, allow := true,
    charge := fun _ => .ok rMockW }

/-- A request for amount 0.10 (valid: positive, two decimal digits). -/
def reqSmallW : TransactionRequest :=
  { transaction_id := "t2", amount := 1/10, currency := .USD,
    merchant_id := "m1", card_last_four := "4242" }

/-- The approved response produced by running `reqSmallW` against
`pMockW` from an empty cache at time 0: its fee is the exact product
0.0025, not a 2-digit rounding of it. -/
def respMockW : TransactionResponse :=
  { transaction_id := "t2", status := "approved",
    processor_used := some "M", amount := 1/10, currency := "USD",
    fee := some (1/400), fee_rate := some (1/40), attempts := 1,
    processors_tried := [("M", AuditTag.success)], retry_log := [],
    processed_at := 0 }

/-- The run accumulator at the moment `respMockW` is built. -/
def accMockW : RunAcc :=
  { attempts := 1, tried := [("M", AuditTag.success)], retryLog := [],
    lastResult := some rMockW, calls := [("M", ChargeBehavior.ok rMockW)] }

/-- The declined response produced by running `reqW` against the single
soft-declining processor `pSoftW` from an empty cache at time 0. -/
def respW : TransactionResponse :=
  { transaction_id := "t1", status := "declined", amount := 100,
    currency := "USD", decline_reason := some "insufficient_funds",
    decline_type := some "soft", attempts := 1,
    processors_tried :=
      [("A", AuditTag.softFail .soft_decline (some "insufficient_funds"))],
    retry_log := [], processed_at := 0 }

/-! ## Theorems -/

@[simp] theorem retryMark_attempts (p : ProcModel) (ba : Nat)
    (acc : RunAcc) : (retryMark p ba acc).attempts = acc.attempts := by
  rw [retryMark]; split <;> rfl

@[simp] theorem retryMark_tried (p : ProcModel) (ba : Nat) (acc : RunAcc) :
    (retryMark p ba acc).tried = acc.tried := by
  rw [retryMark]; split <;> rfl

@[simp] theorem retryMark_calls (p : ProcModel) (ba : Nat) (acc : RunAcc) :
    (retryMark p ba acc).calls = acc.calls := by
  rw [retryMark]; split <;> rfl

@[simp] theorem retryMark_lastResult (p : ProcModel) (ba : Nat)
    (acc : RunAcc) : (retryMark p ba acc).lastResult = acc.lastResult := by
  rw [retryMark]; split <;> rfl

@[simp] theorem attemptMark_attempts (acc : RunAcc) :
    (attemptMark acc).attempts = acc.attempts + 1 := rfl

@[simp] theorem attemptMark_tried (acc : RunAcc) :
    (attemptMark acc).tried = acc.tried := rfl

@[simp] theorem attemptMark_calls (acc : RunAcc) :
    (attemptMark acc).calls = acc.calls := rfl

@[simp] theorem attemptMark_lastResult (acc : RunAcc) :
    (attemptMark acc).lastResult = acc.lastResult := rfl

@[simp] theorem callMark_attempts (p : ProcModel) (beh : ChargeBehavior)
    (result : ProcessorResult) (acc : RunAcc) :
    (callMark p beh result acc).attempts = acc.attempts := rfl

@[simp] theorem callMark_tried (p : ProcModel) (beh : ChargeBehavior)
    (result : ProcessorResult) (acc : RunAcc) :
    (callMark p beh result acc).tried = acc.tried := rfl

@[simp] theorem callMark_calls (p : ProcModel) (beh : ChargeBehavior)
    (result : ProcessorResult) (acc : RunAcc) :
    (callMark p beh result acc).calls =
      acc.calls ++ [(p.name, beh)] := rfl

@[simp] theorem callMark_lastResult (p : ProcModel) (beh : ChargeBehavior)
    (result : ProcessorResult) (acc : RunAcc) :
    (callMark p beh result acc).lastResult = some result := rfl

@[simp] theorem raiseMark_calls (p : ProcModel) (acc : RunAcc) :
    (raiseMark p acc).calls =
      acc.calls ++ [(p.name, ChargeBehavior.raises)] := rfl

@[simp] theorem triedMark_attempts (e : AuditEntry) (acc : RunAcc) :
    (triedMark e acc).attempts = acc.attempts := rfl

@[simp] theorem triedMark_tried (e : AuditEntry) (acc : RunAcc) :
    (triedMark e acc).tried = acc.tried ++ [e] := rfl

@[simp] theorem triedMark_calls (e : AuditEntry) (acc : RunAcc) :
    (triedMark e acc).calls = acc.calls := rfl

@[simp] theorem triedMark_lastResult (e : AuditEntry) (acc : RunAcc) :
    (triedMark e acc).lastResult = acc.lastResult := rfl

/-- C1: for the circuit breaker in CLOSED state, a recorded failure trips
the breaker to OPEN with `opened_at := now` when the updated rolling
window holds at least 5 samples and its success ratio is strictly below
`trip_threshold`; with fewer than 5 samples the breaker stays CLOSED
regardless of the success rate. -/
theorem closed_failure_trip (cfg : BreakerConfig) (now : ℚ) (b : Breaker)
    (hclosed : b.state = .closed) :
    (5 ≤ (add_sample cfg now false b.window).length →
      (success_count (add_sample cfg now false b.window) : ℚ) /
          ((add_sample cfg now false b.window).length : ℚ) <
        cfg.trip_threshold →
      (record_failure cfg now b).state = .opened ∧
        (record_failure cfg now b).opened_at = some now) ∧
    ((add_sample cfg now false b.window).length < 5 →
      (record_failure cfg now b).state = .closed) := by
  have h1 : record_failure cfg now b =
      evaluate_trip cfg now
        { b with last_failure_at := some now,
                 window := add_sample cfg now false b.window } := by
    rw [record_failure, if_neg (by simp [hclosed]), if_pos hclosed]
  constructor
  · intro h5 hrate
    rw [h1, evaluate_trip, if_neg (by simp; omega), if_pos hrate]
    exact ⟨rfl, rfl⟩
  · intro h5
    rw [h1, evaluate_trip, if_pos h5]
    exact hclosed

/-- C1 witness: a CLOSED breaker with four failure samples receives a
fifth failure at time 1; the window has 5 samples with 0 percent success,
so the breaker opens with `opened_at = 1`. -/
theorem closed_failure_trip_witness :
    (record_failure cfgCB 1 bClosed4).state = .opened ∧
      (record_failure cfgCB 1 bClosed4).opened_at = some 1 :=
  (closed_failure_trip cfgCB 1 bClosed4 rfl).1
    (by norm_num [add_sample, evict_stale, cfgCB, bClosed4, List.dropWhile])
    (by norm_num [add_sample, evict_stale, cfgCB, bClosed4, List.dropWhile,
      success_count])

/-- C6: in HALF_OPEN, `allow_request` returns true exactly when no probe
is in flight and then claims the probe slot; a recorded success recovers
the breaker to CLOSED clearing the probe flag; a recorded failure sends
it back to OPEN with `opened_at := now`, also clearing the probe flag. -/
theorem half_open_probe (cfg : BreakerConfig) (now : ℚ) (b : Breaker)
    (hhalf : b.state = .halfOpen) :
    ((allow_request cfg now b).1 = true ↔ b.probe_in_flight = false) ∧
    (b.probe_in_flight = false →
      (allow_request cfg now b).2.probe_in_flight = true) ∧
    ((record_success cfg now b).state = .closed ∧
      (record_success cfg now b).probe_in_flight = false) ∧
    ((record_failure cfg now b).state = .opened ∧
      (record_failure cfg now b).opened_at = some now ∧
      (record_failure cfg now b).probe_in_flight = false) := by
  have hra : allow_request cfg now b =
      (if b.probe_in_flight then (false, b)
       else (true, { b with probe_in_flight := true })) := by
    rw [allow_request, if_neg (by simp [hhalf]), if_neg (by simp [hhalf]),
      if_pos hhalf]
  refine ⟨?_, ?_, ?_, ?_⟩
  · rw [hra]
    cases hp : b.probe_in_flight <;> simp
  · intro hp
    rw [hra, hp]
    simp
  · rw [record_success, if_pos hhalf]
    exact ⟨rfl, rfl⟩
  · rw [record_failure, if_pos hhalf]
    exact ⟨rfl, rfl, rfl⟩

/-- C6 witness: a HALF_OPEN breaker with a free probe slot at time 7
allows the probe, sets the in-flight flag, recovers to CLOSED on success
and re-opens with `opened_at = 7` on failure. -/
theorem half_open_probe_witness :
    ((allow_request cfgCB 7 bHalf).1 = true ↔
      bHalf.probe_in_flight = false) ∧
    (bHalf.probe_in_flight = false →
      (allow_request cfgCB 7 bHalf).2.probe_in_flight = true) ∧
    ((record_success cfgCB 7 bHalf).state = .closed ∧
      (record_success cfgCB 7 bHalf).probe_in_flight = false) ∧
    ((record_failure cfgCB 7 bHalf).state = .opened ∧
      (record_failure cfgCB 7 bHalf).opened_at = some 7 ∧
      (record_failure cfgCB 7 bHalf).probe_in_flight = false) :=
  half_open_probe cfgCB 7 bHalf rfl

/-- C10: while the breaker is OPEN, `record_success` and `record_failure`
only add a sample to the window (the latter also stamping
`last_failure_at`) and never change the state or `opened_at`;
`inject_failures` likewise leaves the state OPEN; the only exits from
OPEN are `allow_request` once the cooldown has elapsed (to HALF_OPEN) and
`reset` (to CLOSED). -/
theorem open_state_stable (cfg : BreakerConfig) (now : ℚ) (n : Nat)
    (b : Breaker) (hopen : b.state = .opened) :
    ((record_success cfg now b).state = .opened ∧
      (record_success cfg now b).opened_at = b.opened_at ∧
      (record_success cfg now b).window = add_sample cfg now true b.window) ∧
    ((record_failure cfg now b).state = .opened ∧
      (record_failure cfg now b).opened_at = b.opened_at ∧
      (record_failure cfg now b).window = add_sample cfg now false b.window ∧
      (record_failure cfg now b).last_failure_at = some now) ∧
    ((inject_failures cfg now n b).state = .opened) ∧
    (∀ t, b.opened_at = some t → ¬ cfg.cooldown_seconds ≤ now - t →
      (allow_request cfg now b).1 = false ∧
        (allow_request cfg now b).2 = b) ∧
    (∀ t, b.opened_at = some t → cfg.cooldown_seconds ≤ now - t →
      (allow_request cfg now b).1 = true ∧
        (allow_request cfg now b).2.state = .halfOpen) ∧
    ((reset b).state = .closed) := by
  have hs : record_success cfg now b =
      { b with window := add_sample cfg now true b.window } := by
    rw [record_success, if_neg (by simp [hopen])]
  have hf : record_failure cfg now b =
      { b with last_failure_at := some now,
               window := add_sample cfg now false b.window } := by
    rw [record_failure, if_neg (by simp [hopen]), if_neg (by simp [hopen])]
  have hi : inject_failures cfg now n b =
      { b with window := add_failures cfg now n b.window,
               last_failure_at := some now } := by
    rw [inject_failures, if_neg (by simp [hopen])]
  have ha : allow_request cfg now b =
      (match b.opened_at with
       | some t =>
         if cfg.cooldown_seconds ≤ now - t then
           (true, { b with state := .halfOpen, probe_in_flight := true })
         else (false, b)
       | none => (false, b)) := by
    rw [allow_request, if_neg (by simp [hopen]), if_pos hopen]
  refine ⟨⟨?_, ?_, ?_⟩, ⟨?_, ?_, ?_, ?_⟩, ?_, ?_, ?_, rfl⟩
  · rw [hs]; exact hopen
  · rw [hs]
  · rw [hs]
  · rw [hf]; exact hopen
  · rw [hf]
  · rw [hf]
  · rw [hf]
  · rw [hi]; exact hopen
  · intro t ht hlt
    rw [ha, ht]
    simp [hlt]
  · intro t ht hle
    rw [ha, ht]
    simp [hle]

/-- C10 witness: an OPEN breaker opened at time 0 stays OPEN under
`record_success`, `record_failure` and `inject_failures`; at time 0 the
cooldown of 120 s has not elapsed so requests are rejected; at time 200
the cooldown has elapsed so the breaker moves to HALF_OPEN; `reset`
returns it to CLOSED. -/
theorem open_state_stable_witness :
    (record_success cfgCB 0 bOpen).state = .opened ∧
      (record_failure cfgCB 0 bOpen).state = .opened ∧
      (inject_failures cfgCB 0 3 bOpen).state = .opened ∧
      (allow_request cfgCB 0 bOpen).1 = false ∧
      (allow_request cfgCB 200 bOpen).1 = true ∧
      (allow_request cfgCB 200 bOpen).2.state = .halfOpen ∧
      (reset bOpen).state = .closed := by
  obtain ⟨h1, h2, h3, h4, _, h6⟩ := open_state_stable cfgCB 0 3 bOpen rfl
  obtain ⟨_, _, _, _, h5', _⟩ := open_state_stable cfgCB 200 3 bOpen rfl
  exact ⟨h1.1, h2.1, h3, (h4 0 rfl (by norm_num [cfgCB])).1,
    (h5' 0 rfl (by norm_num [cfgCB])).1,
    (h5' 0 rfl (by norm_num [cfgCB])).2, h6⟩

/-- C7 counterexample: at `attempt = 0`, `base = -1`, `cap = 30` and
`jitter = false` the backoff policy returns `-1`, which does not lie in
the interval `[0, cap]`; the claim's bound fails for negative inputs. -/
theorem backoff_negative_base_cex :
    exponential_backoff 0 (-1) 30 false 0 = -1 ∧
      ¬ (0 ≤ exponential_backoff 0 (-1) 30 false 0) := by
  have h : exponential_backoff 0 (-1) 30 false 0 = -1 := by
    rw [exponential_backoff, if_neg Bool.false_ne_true]
    norm_num [min_def]
  rw [h]
  norm_num

/-- C7 amended: for every attempt and all nonnegative `base` and `cap`
(and any jitter draw `u` in the unit interval) the returned delay lies in
`[0, cap]`, and with `jitter = false` it equals
`min(cap, base * 2 ^ attempt)`. -/
theorem backoff_delay_bounds (attempt : Nat) (base cap : ℚ) (jitter : Bool)
    (u : ℚ) (hbase : 0 ≤ base) (hcap : 0 ≤ cap) (hu0 : 0 ≤ u)
    (hu1 : u ≤ 1) :
    0 ≤ exponential_backoff attempt base cap jitter u ∧
      exponential_backoff attempt base cap jitter u ≤ cap ∧
      (jitter = false →
        exponential_backoff attempt base cap jitter u =
          min cap (base * 2 ^ attempt)) := by
  have hd0 : 0 ≤ min cap (base * 2 ^ attempt) :=
    le_min hcap (mul_nonneg hbase (by positivity))
  have hdc : min cap (base * 2 ^ attempt) ≤ cap := min_le_left _ _
  rw [exponential_backoff]
  cases jitter
  · rw [if_neg Bool.false_ne_true]
    exact ⟨hd0, hdc, fun _ => rfl⟩
  · rw [if_pos rfl]
    exact ⟨mul_nonneg hu0 hd0,
      le_trans (mul_le_of_le_one_left hd0 hu1) hdc, fun h => nomatch h⟩

/-- C7 witness: with the default base 0.5 s and cap 30 s, at attempt 3
without jitter the delay is nonnegative, capped by 30 and equal to
`min(30, 0.5 * 2^3)`. -/
theorem backoff_delay_bounds_witness :
    0 ≤ exponential_backoff 3 (1/2) 30 false 0 ∧
      exponential_backoff 3 (1/2) 30 false 0 ≤ 30 ∧
      (false = false →
        exponential_backoff 3 (1/2) 30 false 0 = min 30 ((1/2) * 2 ^ 3)) :=
  backoff_delay_bounds 3 (1/2) 30 false 0 (by norm_num) (by norm_num)
    le_rfl (by norm_num)

/-- Inserting with `insertByFee` permutes: the result is the element
consed on the original list, up to permutation. -/
theorem insertByFee_perm (p : ProcModel) (l : List ProcModel) :
    List.Perm (insertByFee p l) (p :: l) := by
  induction l with
  | nil => exact List.Perm.refl _
  | cons q qs ih =>
    rw [insertByFee]
    split
    · exact List.Perm.refl _
    · exact (ih.cons q).trans (List.Perm.swap p q qs)

/-- `sortByFee` is a permutation of its input. -/
theorem sortByFee_perm (l : List ProcModel) : List.Perm (sortByFee l) l := by
  induction l with
  | nil => exact List.Perm.refl _
  | cons p ps ih =>
    rw [sortByFee]
    exact (insertByFee_perm p (sortByFee ps)).trans (ih.cons p)

/-- `insertByFee` preserves sortedness by fee rate. -/
theorem insertByFee_pairwise (p : ProcModel) (l : List ProcModel)
    (hl : List.Pairwise (fun a b => a.fee_rate ≤ b.fee_rate) l) :
    List.Pairwise (fun a b => a.fee_rate ≤ b.fee_rate) (insertByFee p l) := by
  induction l with
  | nil => simp [insertByFee]
  | cons q qs ih =>
    obtain ⟨hq, hqs⟩ := List.pairwise_cons.mp hl
    rw [insertByFee]
    split
    case isTrue h =>
      refine List.Pairwise.cons ?_ hl
      intro x hx
      rcases List.mem_cons.mp hx with rfl | hx'
      · exact h
      · exact le_trans h (hq x hx')
    case isFalse h =>
      refine List.Pairwise.cons ?_ (ih hqs)
      intro x hx
      rcases List.mem_cons.mp ((insertByFee_perm p qs).mem_iff.mp hx) with
        rfl | hx'
      · exact le_of_lt (lt_of_not_ge h)
      · exact hq x hx'

/-- `sortByFee` sorts by ascending fee rate. -/
theorem sortByFee_sorted (l : List ProcModel) :
    List.Pairwise (fun a b => a.fee_rate ≤ b.fee_rate) (sortByFee l) := by
  induction l with
  | nil => simp [sortByFee]
  | cons p ps ih =>
    rw [sortByFee]
    exact insertByFee_pairwise p _ ih

/-- Stability of one insertion step: restricted to any single fee-rate
class, insertion puts the new element first and otherwise keeps the
class untouched (the skipped elements have strictly smaller fee rate). -/
theorem insertByFee_filter_key (p : ProcModel) (l : List ProcModel)
    (r : ℚ) :
    (insertByFee p l).filter (fun q => q.fee_rate == r) =
      if p.fee_rate == r then
        p :: l.filter (fun q => q.fee_rate == r)
      else l.filter (fun q => q.fee_rate == r) := by
  induction l with
  | nil =>
    by_cases hp : (p.fee_rate == r) = true
    · simp [insertByFee, hp]
    · simp [insertByFee, eq_false_of_ne_true hp]
  | cons q qs ih =>
    rw [insertByFee]
    split
    case isTrue h =>
      by_cases hp : (p.fee_rate == r) = true
      · simp [List.filter_cons, hp]
      · simp [List.filter_cons, eq_false_of_ne_true hp]
    case isFalse h =>
      have hlt : q.fee_rate < p.fee_rate := lt_of_not_ge h
      by_cases hp : (p.fee_rate == r) = true
      · have hq : (q.fee_rate == r) = false := by
          refine beq_eq_false_iff_ne.mpr ?_
          rw [beq_iff_eq] at hp
          exact fun hqr => absurd (hqr.trans hp.symm) (ne_of_lt hlt)
        simp [List.filter_cons, hq, ih, hp]
      · have hp' : (p.fee_rate == r) = false := eq_false_of_ne_true hp
        by_cases hq : (q.fee_rate == r) = true
        · simp [List.filter_cons, hq, ih, hp']
        · simp [List.filter_cons, eq_false_of_ne_true hq, ih, hp']

/-- Stability of `sortByFee`: the sublist of processors at any single
fee rate is preserved verbatim, i.e. ties keep their input order. -/
theorem sortByFee_filter_key (l : List ProcModel) (r : ℚ) :
    (sortByFee l).filter (fun q => q.fee_rate == r) =
      l.filter (fun q => q.fee_rate == r) := by
  induction l with
  | nil => rfl
  | cons p ps ih =>
    rw [sortByFee, insertByFee_filter_key]
    by_cases hp : (p.fee_rate == r) = true
    · simp [List.filter_cons, hp, ih]
    · simp [List.filter_cons, eq_false_of_ne_true hp, ih]

/-- C5: the processor order computed at the top of `process` puts, for
BRL, the processors named PixFlow first (in declared order) followed by
the rest sorted by ascending fee rate, and otherwise sorts the whole
list by ascending fee rate; the sort is a permutation, is sorted, and
processors with equal fee rate keep their relative input order. -/
theorem order_processors_spec (ps : List ProcModel) (c : Currency) :
    (c = .BRL →
      orderProcessors ps c =
        ps.filter (fun p => p.name == "PixFlow") ++
          sortByFee (ps.filter (fun p => !(p.name == "PixFlow")))) ∧
    (c ≠ .BRL → orderProcessors ps c = sortByFee ps) ∧
    List.Perm (sortByFee ps) ps ∧
    List.Pairwise (fun a b => a.fee_rate ≤ b.fee_rate) (sortByFee ps) ∧
    (∀ r : ℚ, (sortByFee ps).filter (fun p => p.fee_rate == r) =
      ps.filter (fun p => p.fee_rate == r)) := by
  refine ⟨?_, ?_, sortByFee_perm ps, sortByFee_sorted ps,
    fun r => sortByFee_filter_key ps r⟩
  · intro h
    rw [orderProcessors, if_pos h]
  · intro h
    rw [orderProcessors, if_neg h]

/-- C5 witness: on the concrete three-processor list the BRL order is
PixFlow followed by the rest fee-sorted, the USD order is the fee sort
of the whole list, and the fee-rate-3 tie class is preserved by the
sort. -/
theorem order_processors_spec_witness :
    orderProcessors psW .BRL =
      psW.filter (fun p => p.name == "PixFlow") ++
        sortByFee (psW.filter (fun p => !(p.name == "PixFlow"))) ∧
    orderProcessors psW .USD = sortByFee psW ∧
    (sortByFee psW).filter (fun p => p.fee_rate == 3) =
      psW.filter (fun p => p.fee_rate == 3) :=
  ⟨(order_processors_spec psW .BRL).1 rfl,
    (order_processors_spec psW .USD).2.1 (by simp),
    (order_processors_spec psW .USD).2.2.2.2 3⟩

/-- Appending a non-circuit-open audit entry bumps the non-skip count. -/
theorem countNonCO_append_nonCO (l : List AuditEntry) (e : AuditEntry)
    (he : (e.2 == AuditTag.circuitOpen) = false) :
    countNonCO (l ++ [e]) = countNonCO l + 1 := by
  simp [countNonCO, List.filter_append, List.filter, he]

/-- Appending a circuit-open audit entry leaves the non-skip count
unchanged. -/
theorem countNonCO_append_CO (l : List AuditEntry) (n : String) :
    countNonCO (l ++ [(n, AuditTag.circuitOpen)]) = countNonCO l := by
  simp [countNonCO, List.filter_append, List.filter]

/-- Every step of the backoff loop adds exactly one attempt and one
non-circuit-open audit entry, so the attempts invariant is preserved by
`chargeLoop` and transferred onto both terminal responses. -/
theorem chargeLoop_inv (req : TransactionRequest) (now : ℚ) (p : ProcModel) :
    ∀ rem ba acc, InvA acc → InvOut (chargeLoop req now p ba rem acc) := by
  intro rem
  induction rem with
  | zero =>
    intro ba acc h
    unfold InvA at h
    rw [chargeLoop]
    cases hc : p.charge ba with
    | raises => simp [InvOut]
    | timedOut =>
      simp [InvOut, InvA, countNonCO_append_nonCO, h]
    | ok result =>
      cases hs : result.status <;>
        simp [hs, InvOut, InvA, approvedResp, declinedHardResp,
          countNonCO_append_nonCO, h]
  | succ rem' ih =>
    intro ba acc h
    unfold InvA at h
    rw [chargeLoop]
    cases hc : p.charge ba with
    | raises => simp [InvOut]
    | timedOut =>
      simp [InvOut, InvA, countNonCO_append_nonCO, h]
    | ok result =>
      cases hs : result.status with
      | rate_limited =>
        simp only [hs]
        apply ih
        simp [InvA, countNonCO_append_nonCO, h]
      | _ =>
        simp [hs, InvOut, InvA, approvedResp, declinedHardResp,
          countNonCO_append_nonCO, h]

/-- The attempts invariant is preserved along the whole processor chain:
circuit-open skips add an audit entry without an attempt and charged
processors preserve it via `chargeLoop_inv`. -/
theorem runChain_inv (cfg : Settings) (req : TransactionRequest) (now : ℚ) :
    ∀ procs acc, InvA acc → InvChain (runChain cfg req now procs acc) := by
  intro procs
  induction procs with
  | nil =>
    intro acc h
    rw [runChain]
    exact h
  | cons p rest ih =>
    intro acc h
    rw [runChain]
    by_cases hal : p.allow = true
    · rw [if_pos hal]
      have hout := chargeLoop_inv req now p cfg.BACKOFF_MAX_RETRIES 0 acc h
      cases hcl : chargeLoop req now p 0 cfg.BACKOFF_MAX_RETRIES acc with
      | terminal resp acc' =>
        rw [hcl] at hout
        exact hout
      | next acc' =>
        rw [hcl] at hout
        exact ih acc' hout
      | raised acc' => trivial
    · rw [if_neg hal]
      apply ih
      unfold InvA at h ⊢
      rw [circuitSkip]
      simpa [countNonCO_append_CO] using h

/-- A successful cache lookup comes from an entry of the cache. -/
theorem cacheFind_mem (c : Cache) (k : String)
    (v : ℚ × Option TransactionResponse) (h : cacheFind c k = some v) :
    (k, v) ∈ c := by
  induction c with
  | nil => simp [cacheFind] at h
  | cons e es ih =>
    obtain ⟨e1, e2⟩ := e
    rw [cacheFind] at h
    by_cases he : (e1 == k) = true
    · rw [if_pos he] at h
      rw [beq_iff_eq] at he
      subst he
      simp only [Option.some.injEq] at h
      subst h
      exact List.mem_cons_self _ _
    · rw [if_neg he] at h
      exact List.mem_cons_of_mem _ (ih h)

/-- When `check_and_claim` returns a response, that response was cached
non-expired under the transaction id, and the cache is untouched. -/
theorem check_and_claim_some (c : Cache) (k : String) (now : ℚ)
    (r : TransactionResponse) (c₂ : Cache)
    (h : check_and_claim c k now = (some r, c₂)) :
    ∃ ts, cacheFind c k = some (ts, some r) ∧ now - ts ≤ TTL ∧ c₂ = c := by
  rw [check_and_claim] at h
  cases hf : cacheFind c k with
  | none =>
    rw [hf] at h
    simp at h
  | some v =>
    obtain ⟨ts, payload⟩ := v
    rw [hf] at h
    by_cases httl : now - ts ≤ TTL
    · cases payload with
      | some resp =>
        refine ⟨ts, ?_, httl, ?_⟩
        · have hr : resp = r := by
            have := congrArg Prod.fst h
            simpa [httl] using this
          rw [hr]
        · have := congrArg Prod.snd h
          simpa [httl] using this.symm
      | none =>
        exfalso
        have := congrArg Prod.fst h
        simp [httl] at this
    · exfalso
      have := congrArg Prod.fst h
      simp [httl] at this

/-- C4: every response returned by `process` (from a cache whose stored
responses already satisfy the invariant) has `attempts` equal to the
number of audit-trail entries whose outcome tag is not `circuit_open`;
and a breaker-rejected processor contributes exactly one `circuit_open`
audit entry without incrementing `attempts`. -/
theorem attempts_match_audit (cfg : Settings) (procs : List ProcModel)
    (req : TransactionRequest) (c : Cache) (now : ℚ)
    (resp : TransactionResponse) (c' : Cache)
    (calls : List (String × ChargeBehavior)) (hwf : WFCache c)
    (hp : process cfg procs req c now = .ok (resp, c', calls)) :
    resp.attempts = countNonCO resp.processors_tried ∧
    (∀ (p : ProcModel) (rest : List ProcModel) (acc : RunAcc),
      p.allow = false →
        runChain cfg req now (p :: rest) acc =
          runChain cfg req now rest (circuitSkip p acc) ∧
        (circuitSkip p acc).attempts = acc.attempts ∧
        (circuitSkip p acc).tried =
          acc.tried ++ [(p.name, AuditTag.circuitOpen)]) := by
  constructor
  · rw [process] at hp
    rcases hcc : check_and_claim c req.transaction_id now with ⟨ors, c₂⟩
    rw [hcc] at hp
    cases ors with
    | some r =>
      simp only [Except.ok.injEq, Prod.mk.injEq] at hp
      obtain ⟨ts, hfind, _, _⟩ := check_and_claim_some c _ now r c₂ hcc
      have hmem := cacheFind_mem c _ _ hfind
      have := hwf _ hmem r rfl
      rw [hp.1] at this
      exact this
    | none =>
      have hinv := runChain_inv cfg req now
        (orderProcessors procs req.currency) RunAcc.init rfl
      cases hrc : runChain cfg req now (orderProcessors procs req.currency)
          RunAcc.init with
      | terminal r acc =>
        rw [hrc] at hp hinv
        simp only [Except.ok.injEq, Prod.mk.injEq] at hp
        rw [← hp.1]
        exact hinv.1
      | exhausted acc =>
        rw [hrc] at hp hinv
        simp only [Except.ok.injEq, Prod.mk.injEq] at hp
        rw [← hp.1]
        exact hinv
      | raised acc =>
        rw [hrc] at hp
        simp at hp
  · intro p rest acc hal
    rw [runChain, if_neg (by simp [hal])]
    exact ⟨rfl, rfl, rfl⟩

/-- C4 witness: running the fixture request against the single always
soft-declining processor from an empty cache yields one attempt and one
non-skip audit entry. -/
theorem attempts_match_audit_witness :
    respW.attempts = countNonCO respW.processors_tried := by
  have hp : process Settings.default [pSoftW] reqW [] 0 =
      .ok (respW, [("t1", (0, some respW))],
        [("A", ChargeBehavior.ok rSoftW)]) := by
    norm_num [process, check_and_claim, cacheFind, cacheSet,
      orderProcessors, sortByFee, insertByFee, runChain, chargeLoop,
      retryMark, attemptMark, callMark, triedMark,
      store_and_evict, exhaustedResp, exhaustedReason, exhaustedType,
      RunAcc.init, circuitSkip, TTL, Settings.default, pSoftW, reqW,
      rSoftW, respW, Currency.str, DeclineType.str]
    all_goals
      intro h
      exact absurd h (by decide)
  exact (attempts_match_audit Settings.default [pSoftW] reqW [] 0 respW
    [("t1", (0, some respW))] [("A", ChargeBehavior.ok rSoftW)]
    (by simp [WFCache]) hp).1

/-- If the backoff loop reaches an attempt whose charge hard-declines
(after `d` rate-limited attempts), it returns the hard-decline terminal
response built from that result, and every charge it recorded was a call
to this processor. -/
theorem chargeLoop_hard (req : TransactionRequest) (now : ℚ)
    (p : ProcModel) :
    ∀ d ba rem acc (r : ProcessorResult), d ≤ rem →
      (∀ j, ba ≤ j → j < ba + d →
        ∃ rj, p.charge j = .ok rj ∧ rj.status = .rate_limited) →
      p.charge (ba + d) = .ok r → r.status = .hard_decline →
      ∃ acc' newCalls,
        chargeLoop req now p ba rem acc =
          .terminal (declinedHardResp req p.name r acc' now) acc' ∧
        acc'.calls = acc.calls ++ newCalls ∧
        (∀ e ∈ newCalls, e.1 = p.name) := by
  intro d
  induction d with
  | zero =>
    intro ba rem acc r _ _ hc hs
    rw [Nat.add_zero] at hc
    rw [chargeLoop]
    simp only [hc, hs]
    refine ⟨_, [(p.name, ChargeBehavior.ok r)], rfl, by simp, ?_⟩
    intro e he
    simp only [List.mem_singleton] at he
    rw [he]
  | succ d ih =>
    intro ba rem acc r hd hrl hc hs
    obtain ⟨rem', rfl⟩ : ∃ rem', rem = rem' + 1 := ⟨rem - 1, by omega⟩
    obtain ⟨r0, hc0, hs0⟩ := hrl ba le_rfl (by omega)
    have hc' : p.charge (ba + 1 + d) = .ok r := by
      have heq : ba + 1 + d = ba + (d + 1) := by omega
      rw [heq]
      exact hc
    have hrl' : ∀ j, ba + 1 ≤ j → j < ba + 1 + d →
        ∃ rj, p.charge j = .ok rj ∧ rj.status = .rate_limited :=
      fun j h1 h2 => hrl j (by omega) (by omega)
    obtain ⟨acc', newCalls, hloop, hcalls, hnames⟩ :=
      ih (ba + 1) rem'
        (triedMark (p.name, .rateLimitedRetry (ba + 1))
          (callMark p (.ok r0) r0 (attemptMark (retryMark p ba acc))))
        r (by omega) hrl' hc' hs
    refine ⟨acc', (p.name, ChargeBehavior.ok r0) :: newCalls, ?_, ?_, ?_⟩
    · rw [chargeLoop]
      simp only [hc0, hs0]
      exact hloop
    · rw [hcalls]
      simp
    · intro e he
      rcases List.mem_cons.mp he with rfl | he'
      · rfl
      · exact hnames e he'
/-- C2: whenever the processor at the head of the remaining chain is
allowed and its backoff loop reaches an attempt that returns
HARD_DECLINE (index `ba`, preceded only by rate-limited attempts), the
chain returns the declined response immediately with `decline_type`
"hard", `decline_reason` the result's decline code and `processor_used`
that processor's name, and no processor later in the order is charged. -/
theorem hard_decline_terminal (cfg : Settings) (req : TransactionRequest)
    (now : ℚ) (p : ProcModel) (rest : List ProcModel) (acc : RunAcc)
    (ba : Nat) (r : ProcessorResult) (hal : p.allow = true)
    (hba : ba ≤ cfg.BACKOFF_MAX_RETRIES)
    (hrl : ∀ j, j < ba →
      ∃ rj, p.charge j = .ok rj ∧ rj.status = .rate_limited)
    (hc : p.charge ba = .ok r) (hs : r.status = .hard_decline) :
    ∃ resp acc' newCalls,
      runChain cfg req now (p :: rest) acc = .terminal resp acc' ∧
      resp.status = "declined" ∧
      resp.decline_type = some "hard" ∧
      resp.decline_reason = r.decline_code ∧
      resp.processor_used = some p.name ∧
      acc'.calls = acc.calls ++ newCalls ∧
      (∀ e ∈ newCalls, e.1 = p.name) := by
  obtain ⟨acc', newCalls, hloop, hcalls, hnames⟩ :=
    chargeLoop_hard req now p ba 0 cfg.BACKOFF_MAX_RETRIES acc r hba
      (fun j h1 h2 => hrl j (by omega)) (by simpa using hc) hs
  rw [runChain, if_pos hal, hloop]
  exact ⟨declinedHardResp req p.name r acc' now, acc', newCalls, rfl,
    rfl, rfl, rfl, rfl, hcalls, hnames⟩

/-- C2 witness: with the always hard-declining processor first in the
chain, the run terminates on its first attempt with the hard-declined
response and only that processor is charged. -/
theorem hard_decline_terminal_witness :
    ∃ resp acc' newCalls,
      runChain Settings.default reqW 0 [pHardW, pSoftW] RunAcc.init =
        .terminal resp acc' ∧
      resp.status = "declined" ∧
      resp.decline_type = some "hard" ∧
      resp.decline_reason = rHardW.decline_code ∧
      resp.processor_used = some pHardW.name ∧
      acc'.calls = RunAcc.init.calls ++ newCalls ∧
      (∀ e ∈ newCalls, e.1 = pHardW.name) :=
  hard_decline_terminal Settings.default reqW 0 pHardW [pSoftW]
    RunAcc.init 0 rHardW rfl (by norm_num [Settings.default])
    (fun j hj => absurd hj (Nat.not_lt_zero j)) rfl rfl

/-- An approved terminal response of the backoff loop comes from a
successful charge of this processor: `processor_used` is this processor,
the fee fields are copied from the successful result, and the audit
trail ends with this processor's success entry. -/
theorem chargeLoop_approved (req : TransactionRequest) (now : ℚ)
    (p : ProcModel) :
    ∀ rem ba acc resp acc',
      chargeLoop req now p ba rem acc = .terminal resp acc' →
      resp.status = "approved" →
      ∃ (r : ProcessorResult) (k : Nat),
        p.charge k = .ok r ∧ r.status = .success ∧
        resp.processor_used = some p.name ∧
        resp.fee = r.fee ∧ resp.fee_rate = r.fee_rate ∧
        ∃ pre, resp.processors_tried =
          pre ++ [(p.name, AuditTag.success)] := by
  intro rem
  induction rem with
  | zero =>
    intro ba acc resp acc' hcl hap
    rw [chargeLoop] at hcl
    split at hcl
    · exact absurd hcl (by simp)
    · exact absurd hcl (by simp)
    · rename_i result heq
      split at hcl
      · rename_i hs
        injection hcl with h1 h2
        subst h1
        exact ⟨result, ba, heq, hs, rfl, rfl, rfl, acc.tried,
          by simp [approvedResp]⟩
      · rename_i hs
        injection hcl with h1 h2
        rw [← h1] at hap
        exact absurd hap (by simp [declinedHardResp])
      · exact absurd hcl (by simp)
      · exact absurd hcl (by simp)
  | succ rem' ih =>
    intro ba acc resp acc' hcl hap
    rw [chargeLoop] at hcl
    split at hcl
    · exact absurd hcl (by simp)
    · exact absurd hcl (by simp)
    · rename_i result heq
      split at hcl
      · rename_i hs
        injection hcl with h1 h2
        subst h1
        exact ⟨result, ba, heq, hs, rfl, rfl, rfl, acc.tried,
          by simp [approvedResp]⟩
      · rename_i hs
        injection hcl with h1 h2
        rw [← h1] at hap
        exact absurd hap (by simp [declinedHardResp])
      · exact ih _ _ _ _ hcl hap
      · exact absurd hcl (by simp)

/-- C8 amended: for processors that compute fees like
`MockableProcessor.charge`, every approved response of the chain has
`processor_used` equal to the name in the last audit-trail entry, and
its `fee` is exactly `amount * fee_rate` (the code performs exact
decimal multiplication and does not round the fee to two digits). -/
theorem approved_response_fields (cfg : Settings)
    (req : TransactionRequest) (now : ℚ) :
    ∀ (procs : List ProcModel) (acc : RunAcc)
      (resp : TransactionResponse) (acc' : RunAcc),
      (∀ p ∈ procs, MockLike p req) →
      runChain cfg req now procs acc = .terminal resp acc' →
      resp.status = "approved" →
      (∃ last, resp.processors_tried.getLast? = some last ∧
        resp.processor_used = some last.1) ∧
      (∃ q : ℚ, resp.fee_rate = some q ∧
        resp.fee = some (req.amount * q)) := by
  intro procs
  induction procs with
  | nil =>
    intro acc resp acc' _ hrc _
    rw [runChain] at hrc
    simp at hrc
  | cons p rest ih =>
    intro acc resp acc' hml hrc hap
    rw [runChain] at hrc
    by_cases hal : p.allow = true
    · rw [if_pos hal] at hrc
      cases hcl : chargeLoop req now p 0 cfg.BACKOFF_MAX_RETRIES acc with
      | terminal r0 a0 =>
        rw [hcl] at hrc
        simp only [ChainOut.terminal.injEq] at hrc
        obtain ⟨h1, h2⟩ := hrc
        subst h1
        subst h2
        obtain ⟨r, k, hc, hs, hpu, hfee, hfr, pre, htr⟩ :=
          chargeLoop_approved req now p _ _ _ _ _ hcl hap
        constructor
        · exact ⟨(p.name, AuditTag.success),
            by rw [htr]; exact List.getLast?_concat pre, by rw [hpu]⟩
        · obtain ⟨hf, hr⟩ := hml p (List.mem_cons_self p rest) k r hc hs
          exact ⟨p.fee_rate, by rw [hfr, hr], by rw [hfee, hf]⟩
      | next a0 =>
        rw [hcl] at hrc
        exact ih _ _ _ (fun q hq => hml q (List.mem_cons_of_mem p hq))
          hrc hap
      | raised a0 => rw [hcl] at hrc; simp at hrc
    · rw [if_neg hal] at hrc
      exact ih _ _ _ (fun q hq => hml q (List.mem_cons_of_mem p hq))
        hrc hap

/-- C8 counterexample: for the valid request of amount 0.10 against the
mock-like processor with fee rate 0.025, the approved response carries
the exact fee 0.0025, which differs from `amount * fee_rate` rounded to
2-digit fixed-point precision (0.00). -/
theorem approved_fee_not_rounded_cex :
    process Settings.default [pMockW] reqSmallW [] 0 =
      .ok (respMockW, [("t2", (0, some respMockW))],
        [("M", ChargeBehavior.ok rMockW)]) ∧
    respMockW.fee_rate = some (1/40) ∧
    respMockW.fee ≠ some (round2 ((1/10) * (1/40))) := by
  refine ⟨?_, rfl, ?_⟩
  · norm_num [process, check_and_claim, cacheFind, cacheSet,
      orderProcessors, sortByFee, insertByFee, runChain, chargeLoop,
      retryMark, attemptMark, callMark, triedMark, approvedResp,
      store_and_evict, RunAcc.init, TTL, Settings.default, pMockW,
      reqSmallW, rMockW, respMockW, Currency.str]
  · have hr : round2 ((1/10 : ℚ) * (1/40)) = 0 := by
      rw [round2, round_eq]
      norm_num
    rw [hr]
    simp [respMockW]

/-- C8 witness: the amended theorem applied to the concrete approved run
of `reqSmallW` against `pMockW`. -/
theorem approved_response_fields_witness :
    (∃ last, respMockW.processors_tried.getLast? = some last ∧
      respMockW.processor_used = some last.1) ∧
    (∃ q : ℚ, respMockW.fee_rate = some q ∧
      respMockW.fee = some (reqSmallW.amount * q)) :=
  approved_response_fields Settings.default reqSmallW 0 [pMockW]
    RunAcc.init respMockW accMockW
    (by
      intro p hp
      simp only [List.mem_singleton] at hp
      subst hp
      intro k r hc hs
      simp only [pMockW] at hc
      injection hc with hc
      subst hc
      constructor
      · norm_num [rMockW, reqSmallW, pMockW]
      · norm_num [rMockW, pMockW])
    (by
      norm_num [runChain, chargeLoop, retryMark, attemptMark, callMark,
        triedMark, approvedResp, RunAcc.init, pMockW, reqSmallW, rMockW,
        respMockW, accMockW, Settings.default, Currency.str])
    rfl

/-- C9 amended: the engine converts only the timeout signal
(`asyncio.TimeoutError` from `asyncio.wait_for`) into a synthetic
TIMEOUT result; any other exception raised by a processor's `charge`
propagates out of `process` uncaught (here: `process` yields `.error`
instead of a response).  Stated for a run whose ordered chain starts
with the raising processor. -/
theorem raise_escapes (cfg : Settings) (procs : List ProcModel)
    (req : TransactionRequest) (c : Cache) (now : ℚ) (p : ProcModel)
    (rest : List ProcModel)
    (hcc : cacheFind c req.transaction_id = none)
    (hord : orderProcessors procs req.currency = p :: rest)
    (hal : p.allow = true) (hch : p.charge 0 = .raises) :
    process cfg procs req c now = .error () := by
  rw [process, check_and_claim, hcc, hord, runChain, if_pos hal,
    chargeLoop, hch]

/-- C9 counterexample: with a processor whose charge raises an
unexpected exception first in the chain and a healthy processor behind
it, `process` does not fall through as it would for a TIMEOUT: the
exception escapes and no response is produced. -/
theorem raise_escapes_cex :
    process Settings.default [pRaiseW, pSoftW] reqW [] 0 = .error () := by
  norm_num [process, check_and_claim, cacheFind, cacheSet,
    orderProcessors, sortByFee, insertByFee, runChain, chargeLoop,
    RunAcc.init, pRaiseW, pSoftW, reqW, rSoftW]

/-- C9 witness: the amended theorem applied to the singleton chain of
the raising processor. -/
theorem raise_escapes_witness :
    process Settings.default [pRaiseW] reqW [] 0 = .error () :=
  raise_escapes Settings.default [pRaiseW] reqW [] 0 pRaiseW [] rfl
    (by
      norm_num [orderProcessors, sortByFee, insertByFee, reqW]
      intro h
      exact absurd h (by decide)) rfl rfl

/-- Every entry of `cacheSet c k v` whose key is `k` carries `v` (the
old binding for `k` is removed before the new one is appended). -/
theorem cacheSet_key_unique (c : Cache) (k : String)
    (v : ℚ × Option TransactionResponse) :
    ∀ e ∈ cacheSet c k v, e.1 = k → e.2 = v := by
  intro e he hk
  rw [cacheSet] at he
  rcases List.mem_append.mp he with hmem | hmem
  · have := List.of_mem_filter hmem
    simp only [Bool.not_eq_true', beq_eq_false_iff_ne, ne_eq] at this
    exact absurd hk this
  · simp only [List.mem_singleton] at hmem
    rw [hmem]

/-- Looking up the key just written by `cacheSet` returns the new
value. -/
theorem cacheFind_set (c : Cache) (k : String)
    (v : ℚ × Option TransactionResponse) :
    cacheFind (cacheSet c k v) k = some v := by
  induction c with
  | nil =>
    rw [cacheSet]
    simp [cacheFind]
  | cons e es ih =>
    rw [cacheSet, List.filter_cons]
    by_cases he : (e.1 == k) = true
    · rw [if_neg (by simp [he])]
      simpa [cacheSet] using ih
    · rw [if_pos (by simp [he]), List.cons_append, cacheFind, if_neg he]
      simpa [cacheSet] using ih

/-- A lookup survives filtering when the looked-up entry is kept and all
entries under that key agree. -/
theorem cacheFind_filter (q : String × ℚ × Option TransactionResponse →
    Bool) :
    ∀ (l : Cache) (k : String) (v : ℚ × Option TransactionResponse),
      cacheFind l k = some v → q (k, v) = true →
      (∀ e ∈ l, e.1 = k → e.2 = v) →
      cacheFind (l.filter q) k = some v := by
  intro l
  induction l with
  | nil =>
    intro k v h _ _
    simp [cacheFind] at h
  | cons e es ih =>
    intro k v h hq huniq
    rw [cacheFind] at h
    rw [List.filter_cons]
    by_cases he : (e.1 == k) = true
    · rw [if_pos he] at h
      injection h with h
      have hek : e = (k, v) := by
        rw [beq_iff_eq] at he
        exact Prod.ext he h
      rw [hek, if_pos hq]
      simp [cacheFind]
    · rw [if_neg he] at h
      have huniq' : ∀ e' ∈ es, e'.1 = k → e'.2 = v :=
        fun e' he' => huniq e' (List.mem_cons_of_mem _ he')
      by_cases hqe : q e = true
      · rw [if_pos hqe, cacheFind, if_neg he]
        exact ih k v h hq huniq'
      · rw [if_neg hqe]
        exact ih k v h hq huniq'

/-- The entry written by `store_and_evict` survives its own TTL sweep
and is found by a subsequent lookup. -/
theorem cacheFind_store (c : Cache) (k : String)
    (resp : TransactionResponse) (now : ℚ) :
    cacheFind (store_and_evict c k resp now) k = some (now, some resp) := by
  rw [store_and_evict]
  apply cacheFind_filter
  · exact cacheFind_set c k (now, some resp)
  · norm_num [TTL]
  · exact cacheSet_key_unique c k (now, some resp)

/-- C3: for a transaction id not yet in the cache, a completed `process`
call stores its response, and a second sequential `process` call within
the 24-hour TTL returns the identical response, leaves the cache
untouched and performs zero `charge` calls. -/
theorem idempotent_replay (cfg : Settings) (procs : List ProcModel)
    (req : TransactionRequest) (c : Cache) (now now2 : ℚ)
    (resp : TransactionResponse) (c1 : Cache)
    (calls : List (String × ChargeBehavior))
    (hfresh : cacheFind c req.transaction_id = none)
    (h1 : process cfg procs req c now = .ok (resp, c1, calls))
    (httl : now2 - now ≤ TTL) :
    process cfg procs req c1 now2 = .ok (resp, c1, []) := by
  rw [process, check_and_claim, hfresh] at h1
  have hc1 : cacheFind c1 req.transaction_id = some (now, some resp) := by
    cases hrc : runChain cfg req now (orderProcessors procs req.currency)
        RunAcc.init with
    | terminal r0 a0 =>
      rw [hrc] at h1
      simp only [Except.ok.injEq, Prod.mk.injEq] at h1
      obtain ⟨hr, hcache, _⟩ := h1
      rw [← hcache, ← hr]
      exact cacheFind_store _ _ _ _
    | exhausted a0 =>
      rw [hrc] at h1
      simp only [Except.ok.injEq, Prod.mk.injEq] at h1
      obtain ⟨hr, hcache, _⟩ := h1
      rw [← hcache, ← hr]
      exact cacheFind_store _ _ _ _
    | raised a0 =>
      rw [hrc] at h1
      simp at h1
  rw [process, check_and_claim, hc1]
  simp [httl]

/-- C3 witness: replaying the fixture transaction one second after the
first call returns the cached response unchanged with an empty call
trace. -/
theorem idempotent_replay_witness :
    process Settings.default [pSoftW] reqW [("t1", (0, some respW))] 1 =
      .ok (respW, [("t1", (0, some respW))], []) :=
  idempotent_replay Settings.default [pSoftW] reqW [] 0 1 respW
    [("t1", (0, some respW))] [("A", ChargeBehavior.ok rSoftW)] rfl
    (by
      norm_num [process, check_and_claim, cacheFind, cacheSet,
        orderProcessors, sortByFee, insertByFee, runChain, chargeLoop,
        retryMark, attemptMark, callMark, triedMark,
        store_and_evict, exhaustedResp, exhaustedReason, exhaustedType,
        RunAcc.init, circuitSkip, TTL, Settings.default, pSoftW, reqW,
        rSoftW, respW, Currency.str, DeclineType.str]
      all_goals
        intro h
        exact absurd h (by decide))
    (by norm_num [TTL])
